import Mathlib

/-!
Verification of the embedded-field extraction pipeline of
`auction_scraper/scrapers/ebay/EbayAuctionScraper.py`.

The Python functions are shallowly embedded as executable Lean
definitions; external libraries (the JavaScript parser, BeautifulSoup,
the JSON string decoder, `int()`/`float()`) are modelled at the
interface granularity the scraper uses.
-/

/-- Value stored in a raw field map: Python strings for ordinary keys,
Python lists of strings for the designated multi-valued keys. -/
inductive FieldVal where
  | scalar : String → FieldVal
  | multi : List String → FieldVal
deriving DecidableEq

/-- The `raw_values` dictionary: an insertion-ordered string-keyed map,
modelled as an association list with in-place update. -/
abbrev RawFieldMap := List (String × FieldVal)

/-- Dictionary lookup, `d.get(k)`: first binding wins (bindings built by
`setA` are unique). -/
def getA {α : Type} : List (String × α) → String → Option α
  | [], _ => none
  | (k', v) :: m, k => if k' = k then some v else getA m k

/-- Dictionary update `d[k] = v`: replace the binding in place, or append
a new one (Python dicts keep the original insertion position). -/
def setA {α : Type} : List (String × α) → String → α → List (String × α)
  | [], k, v => [(k, v)]
  | (k', v') :: m, k, v => if k' = k then (k, v) :: m else (k', v') :: setA m k v

theorem getA_setA_self {α : Type} (m : List (String × α)) (k : String) (v : α) :
    getA (setA m k v) k = some v := by
  induction m with
  | nil => simp [getA, setA]
  | cons q m ih =>
    obtain ⟨q1, q2⟩ := q
    by_cases h : q1 = k
    · simp [setA, h, getA]
    · simp [setA, h, getA, ih]

theorem getA_setA_ne {α : Type} (m : List (String × α)) (k k' : String) (v : α)
    (h : k' ≠ k) : getA (setA m k v) k' = getA m k' := by
  have hkk : ¬ k = k' := fun hh => h hh.symm
  induction m with
  | nil => simp [getA, setA, hkk]
  | cons q m ih =>
    obtain ⟨q1, q2⟩ := q
    by_cases hq : q1 = k
    · subst hq
      simp [setA, getA, hkk]
    · simp [setA, hq, getA, ih]

theorem mem_setA {α : Type} {m : List (String × α)} {k : String} {v : α}
    {p : String × α} (h : p ∈ setA m k v) : p = (k, v) ∨ p ∈ m := by
  induction m with
  | nil =>
    simp [setA] at h
    exact Or.inl h
  | cons q m ih =>
    obtain ⟨q1, q2⟩ := q
    by_cases hq : q1 = k
    · simp only [setA, if_pos hq, List.mem_cons] at h
      rcases h with h | h
      · exact Or.inl h
      · exact Or.inr (List.mem_cons_of_mem _ h)
    · simp only [setA, if_neg hq, List.mem_cons] at h
      rcases h with h | h
      · exact Or.inr (by simp [h])
      · rcases ih h with h' | h'
        · exact Or.inl h'
        · exact Or.inr (List.mem_cons_of_mem _ h')

/-- Keys of an association list, in order. -/
def keysA {α : Type} (m : List (String × α)) : List String := m.map Prod.fst

theorem keysA_setA {α : Type} (m : List (String × α)) (k : String) (v : α) :
    keysA (setA m k v) = if k ∈ keysA m then keysA m else keysA m ++ [k] := by
  induction m with
  | nil => simp [keysA, setA]
  | cons q m ih =>
    obtain ⟨q1, q2⟩ := q
    by_cases hq : q1 = k
    · subst hq
      simp [keysA, setA]
    · have h1 : ¬ k = q1 := fun hh => hq hh.symm
      simp only [keysA] at ih
      by_cases hk : k ∈ List.map Prod.fst m
      · simp [keysA, setA, hq, hk, h1, ih]
      · simp [keysA, setA, hq, hk, h1, ih]

theorem mem_keysA_setA {α : Type} {m : List (String × α)} {k k' : String} {v : α}
    (h : k' ∈ keysA (setA m k v)) : k' ∈ keysA m ∨ k' = k := by
  rw [keysA_setA] at h
  by_cases hk : k ∈ keysA m
  · rw [if_pos hk] at h
    exact Or.inl h
  · rw [if_neg hk] at h
    rcases List.mem_append.mp h with h | h
    · exact Or.inl h
    · exact Or.inr (by simpa using h)

theorem nodup_keysA_setA {α : Type} {m : List (String × α)} {k : String} {v : α}
    (h : (keysA m).Nodup) : (keysA (setA m k v)).Nodup := by
  rw [keysA_setA]
  by_cases hk : k ∈ keysA m
  · simpa [hk] using h
  · simp [hk, List.nodup_append, h]

theorem getA_eq_none_of_not_mem {α : Type} {m : List (String × α)} {k : String}
    (h : k ∉ keysA m) : getA m k = none := by
  induction m with
  | nil => rfl
  | cons q m ih =>
    obtain ⟨q1, q2⟩ := q
    simp only [keysA, List.map_cons, List.mem_cons, not_or] at h
    have h1 : ¬ q1 = k := fun hh => h.1 hh.symm
    simp only [getA, if_neg h1]
    exact ih (by simpa [keysA] using h.2)

/-- The designated multi-valued field names (`auction_duplicates`, line 62
of `EbayAuctionScraper.py`). -/
def auction_duplicates : List String := ["maxImageUrl", "displayImgUrl"]

/-- One assignment expression found while walking the argument subtree of
a `$rwidgets` call: `key` is the left-hand text and `value` the
right-hand text, both after `getattr(-, 'value', '').strip('"')`. -/
structure JsAssign where
  key : String
  value : String
deriving DecidableEq

/-- One `$rwidgets` function-call node found in a parsed script, with the
assignment expressions of its subtree in visit (document) order. -/
structure RWidgetsCall where
  assigns : List JsAssign
deriving DecidableEq

/-- An inline script element (`soup.find_all('script', src=None)` entry).
`text` is `''.join(script.contents)`; `parseResult` abstracts the slimit
parse plus AST walk: `none` when `parser.parse` raises a parse error,
otherwise the `$rwidgets` calls found, in visit order. -/
structure Script where
  text : String
  parseResult : Option (List RWidgetsCall)
deriving DecidableEq

/-- Substring test on character lists, modelling Python's `in`. -/
def hasSubstr : List Char → List Char → Bool
  | hay, pat =>
    if pat.isPrefixOf hay then true
    else match hay with
      | [] => false
      | _ :: t => hasSubstr t pat

/-- The `'$rwidgets' in script_text` marker test (line 162). -/
def hasMarker (s : Script) : Bool := hasSubstr s.text.toList "$rwidgets".toList

/-- List held by a field value; a scalar at a multi-valued key cannot
arise (those keys only ever receive lists), so it contributes nothing. -/
def getList (v : Option FieldVal) : List String :=
  match v with
  | some (FieldVal.multi l) => l
  | _ => []

/-- One iteration of the inner loop (lines 168-174): a multi-valued key
appends to its list (`fields.setdefault(k, []).append(v)`), any other
key overwrites its scalar. -/
def collectAssign (fields : RawFieldMap) (a : JsAssign) : RawFieldMap :=
  if a.key ∈ auction_duplicates then
    setA fields a.key (FieldVal.multi (getList (getA fields a.key) ++ [a.value]))
  else
    setA fields a.key (FieldVal.scalar a.value)

/-- The per-call `fields` dictionary built from one `$rwidgets` call. -/
def collectCall (c : RWidgetsCall) : RawFieldMap :=
  c.assigns.foldl collectAssign []

/-- One iteration of the merge loop (lines 175-179): a multi-valued key
extends the page-level list (`raw_values.setdefault(k, []).extend(v)`),
any other key overwrites. -/
def mergeField (raw : RawFieldMap) (kv : String × FieldVal) : RawFieldMap :=
  if kv.1 ∈ auction_duplicates then
    setA raw kv.1 (FieldVal.multi (getList (getA raw kv.1) ++ getList (some kv.2)))
  else
    setA raw kv.1 kv.2

/-- Merging one `$rwidgets` call into the page-level map. -/
def mergeCall (raw : RawFieldMap) (c : RWidgetsCall) : RawFieldMap :=
  (collectCall c).foldl mergeField raw

/-- Processing one script of the page (the body of the loop at lines
160-179): non-marker scripts are skipped; a marker script is parsed —
a parse failure is not caught and aborts the whole extraction. -/
def processScript (raw : RawFieldMap) (s : Script) : Except Unit RawFieldMap :=
  if hasMarker s then
    match s.parseResult with
    | none => Except.error ()
    | some calls => Except.ok (calls.foldl mergeCall raw)
  else
    Except.ok raw

/-- The extraction loop of `__get_embedded_json` (lines 157-181), without
the surrounding cache: the scripts of the page in document order are
folded into an initially empty `raw_values`. -/
def extractRawFields (scripts : List Script) : Except Unit RawFieldMap :=
  scripts.foldlM processScript []

/-- Occurrences of key `k` in a list of assignments, in order. -/
def assignOccs (k : String) (assigns : List JsAssign) : List String :=
  assigns.filterMap (fun a => if a.key = k then some a.value else none)

/-- Occurrences of key `k` among the assignments of one call, in order. -/
def callOccs (k : String) (c : RWidgetsCall) : List String :=
  assignOccs k c.assigns

/-- Occurrences of key `k` contributed by one script: none unless the
script bears the marker and parses. -/
def scriptOccs (k : String) (s : Script) : List String :=
  if hasMarker s then
    match s.parseResult with
    | some calls => (calls.map (callOccs k)).flatten
    | none => []
  else []

/-- All occurrences of key `k` on the page, in encounter order across all
marker calls in document order. -/
def pageOccs (k : String) (scripts : List Script) : List String :=
  (scripts.map (scriptOccs k)).flatten

/-- Last element of a list of occurrences (last write). -/
def lastOcc : List String → Option String
  | [] => none
  | x :: xs =>
    match lastOcc xs with
    | none => some x
    | some y => some y

theorem assignOccs_cons (k : String) (a : JsAssign) (assigns : List JsAssign) :
    assignOccs k (a :: assigns) =
      if a.key = k then a.value :: assignOccs k assigns else assignOccs k assigns := by
  by_cases h : a.key = k <;> simp [assignOccs, h]

theorem collect_fold_dup (k : String) (hk : k ∈ auction_duplicates)
    (assigns : List JsAssign) :
    ∀ fields : RawFieldMap,
      getA (assigns.foldl collectAssign fields) k =
        if assignOccs k assigns = [] then getA fields k
        else some (FieldVal.multi (getList (getA fields k) ++ assignOccs k assigns)) := by
  induction assigns with
  | nil => intro fields; simp [assignOccs]
  | cons a assigns ih =>
    intro fields
    by_cases ha : a.key = k
    · have hd : a.key ∈ auction_duplicates := by rw [ha]; exact hk
      have hstep : collectAssign fields a =
          setA fields k (FieldVal.multi (getList (getA fields k) ++ [a.value])) := by
        unfold collectAssign
        rw [if_pos hd, ha]
      rw [List.foldl_cons, hstep, ih, assignOccs_cons, if_pos ha]
      by_cases hocc : assignOccs k assigns = []
      · simp [hocc, getA_setA_self]
      · simp [hocc, getA_setA_self, getList]
    · have hne : getA (collectAssign fields a) k = getA fields k := by
        unfold collectAssign
        by_cases hd : a.key ∈ auction_duplicates
        · rw [if_pos hd, getA_setA_ne _ _ _ _ (fun hh => ha hh.symm)]
        · rw [if_neg hd, getA_setA_ne _ _ _ _ (fun hh => ha hh.symm)]
      rw [List.foldl_cons, ih, assignOccs_cons, if_neg ha, hne]

theorem collect_fold_scalar (k : String) (hk : k ∉ auction_duplicates)
    (assigns : List JsAssign) :
    ∀ fields : RawFieldMap,
      getA (assigns.foldl collectAssign fields) k =
        match lastOcc (assignOccs k assigns) with
        | none => getA fields k
        | some v => some (FieldVal.scalar v) := by
  induction assigns with
  | nil => intro fields; simp [assignOccs, lastOcc]
  | cons a assigns ih =>
    intro fields
    by_cases ha : a.key = k
    · have hd : a.key ∉ auction_duplicates := by rw [ha]; exact hk
      have hstep : collectAssign fields a = setA fields k (FieldVal.scalar a.value) := by
        unfold collectAssign
        rw [if_neg hd, ha]
      rw [List.foldl_cons, hstep, ih, assignOccs_cons, if_pos ha]
      cases hocc : lastOcc (assignOccs k assigns) with
      | none => simp [lastOcc, hocc, getA_setA_self]
      | some y => simp [lastOcc, hocc]
    · have hne : getA (collectAssign fields a) k = getA fields k := by
        unfold collectAssign
        by_cases hd : a.key ∈ auction_duplicates
        · rw [if_pos hd, getA_setA_ne _ _ _ _ (fun hh => ha hh.symm)]
        · rw [if_neg hd, getA_setA_ne _ _ _ _ (fun hh => ha hh.symm)]
      rw [List.foldl_cons, ih, assignOccs_cons, if_neg ha, hne]

/-- Invariant of per-call `fields` dictionaries: a multi-valued key holds
a non-empty list. -/
def GoodEntries (entries : RawFieldMap) : Prop :=
  ∀ p ∈ entries, p.1 ∈ auction_duplicates → ∃ l, p.2 = FieldVal.multi l ∧ l ≠ []

/-- Values contributed to key `k` by the entries of a `fields`
dictionary, in iteration order. -/
def entryOccs (k : String) (entries : RawFieldMap) : List String :=
  (entries.map (fun kv => if kv.1 = k then getList (some kv.2) else [])).flatten

/-- Value written last to a scalar key `k` by iterating `entries`. -/
def entryLast (k : String) : RawFieldMap → Option FieldVal
  | [] => none
  | kv :: es =>
    match entryLast k es with
    | some v => some v
    | none => if kv.1 = k then some kv.2 else none

theorem entryOccs_not_mem (k : String) :
    ∀ es : RawFieldMap, k ∉ keysA es → entryOccs k es = [] := by
  intro es
  induction es with
  | nil => intro _; rfl
  | cons q es ih =>
    intro h
    simp only [keysA, List.map_cons, List.mem_cons, not_or] at h
    have h1 : ¬ q.1 = k := fun hh => h.1 hh.symm
    simp [entryOccs, h1] at ih ⊢
    exact ih (by simpa [keysA] using h.2)

theorem entryLast_not_mem (k : String) :
    ∀ es : RawFieldMap, k ∉ keysA es → entryLast k es = none := by
  intro es
  induction es with
  | nil => intro _; rfl
  | cons q es ih =>
    intro h
    simp only [keysA, List.map_cons, List.mem_cons, not_or] at h
    have h1 : ¬ q.1 = k := fun hh => h.1 hh.symm
    rw [entryLast, ih (by simpa [keysA] using h.2)]
    simp [h1]

theorem entryOccs_nodup (k : String) :
    ∀ es : RawFieldMap, (keysA es).Nodup → entryOccs k es = getList (getA es k) := by
  intro es
  induction es with
  | nil => intro _; rfl
  | cons q es ih =>
    intro h
    obtain ⟨q1, q2⟩ := q
    simp only [keysA, List.map_cons, List.nodup_cons] at h
    by_cases hq : q1 = k
    · subst hq
      have hnil : entryOccs q1 es = [] :=
        entryOccs_not_mem q1 es (by simpa [keysA] using h.1)
      simp only [entryOccs, List.map_cons, List.flatten_cons, if_pos rfl] at hnil ⊢
      simp [hnil, getA]
    · simp [entryOccs, getA, hq] at ih ⊢
      exact ih (by simpa [keysA] using h.2)

theorem entryLast_nodup (k : String) :
    ∀ es : RawFieldMap, (keysA es).Nodup → entryLast k es = getA es k := by
  intro es
  induction es with
  | nil => intro _; rfl
  | cons q es ih =>
    intro h
    obtain ⟨q1, q2⟩ := q
    simp only [keysA, List.map_cons, List.nodup_cons] at h
    by_cases hq : q1 = k
    · subst hq
      rw [entryLast, entryLast_not_mem q1 es (by simpa [keysA] using h.1)]
      simp [getA]
    · rw [entryLast, ih (by simpa [keysA] using h.2)]
      cases hg : getA es k with
      | none => simp [getA, hq, hg]
      | some v => simp [getA, hq, hg]

theorem merge_fold_dup (k : String) (hk : k ∈ auction_duplicates)
    (entries : RawFieldMap) :
    ∀ raw : RawFieldMap, GoodEntries entries →
      getA (entries.foldl mergeField raw) k =
        if entryOccs k entries = [] then getA raw k
        else some (FieldVal.multi (getList (getA raw k) ++ entryOccs k entries)) := by
  induction entries with
  | nil => intro raw _; simp [entryOccs]
  | cons q es ih =>
    intro raw hgood
    obtain ⟨q1, q2⟩ := q
    have hgood' : GoodEntries es := fun p hp => hgood p (List.mem_cons_of_mem _ hp)
    by_cases hq : q1 = k
    · subst hq
      obtain ⟨l, hl, hlne⟩ := hgood (q1, q2) (List.mem_cons_self _ _) hk
      simp only at hl
      subst hl
      have hstep : mergeField raw (q1, FieldVal.multi l) =
          setA raw q1 (FieldVal.multi (getList (getA raw q1) ++ l)) := by
        simp only [mergeField]
        rw [if_pos hk]
        rfl
      rw [List.foldl_cons, hstep, ih _ hgood']
      have hocc : entryOccs q1 ((q1, FieldVal.multi l) :: es) = l ++ entryOccs q1 es := by
        simp [entryOccs, getList]
      by_cases he : entryOccs q1 es = []
      · simp [hocc, he, hlne, getA_setA_self]
      · have hne2 : l ++ entryOccs q1 es ≠ [] := by simp [he]
        simp [hocc, he, hne2, getA_setA_self, getList, List.append_assoc]
    · have hstep : getA (mergeField raw (q1, q2)) k = getA raw k := by
        simp only [mergeField]
        by_cases hd : q1 ∈ auction_duplicates
        · simp only [if_pos hd]
          exact getA_setA_ne _ _ _ _ (fun hh => hq hh.symm)
        · simp only [if_neg hd]
          exact getA_setA_ne _ _ _ _ (fun hh => hq hh.symm)
      have hocc : entryOccs k ((q1, q2) :: es) = entryOccs k es := by
        simp [entryOccs, hq]
      rw [List.foldl_cons, ih _ hgood', hstep, hocc]

theorem merge_fold_scalar (k : String) (hk : k ∉ auction_duplicates)
    (entries : RawFieldMap) :
    ∀ raw : RawFieldMap,
      getA (entries.foldl mergeField raw) k =
        match entryLast k entries with
        | none => getA raw k
        | some v => some v := by
  induction entries with
  | nil => intro raw; simp [entryLast]
  | cons q es ih =>
    intro raw
    obtain ⟨q1, q2⟩ := q
    by_cases hq : q1 = k
    · subst hq
      have hstep : getA (mergeField raw (q1, q2)) q1 = some q2 := by
        simp only [mergeField]
        rw [if_neg hk]
        exact getA_setA_self _ _ _
      rw [List.foldl_cons, ih, entryLast]
      cases he : entryLast q1 es with
      | none => simp [he, hstep]
      | some v => simp [he]
    · have hstep : getA (mergeField raw (q1, q2)) k = getA raw k := by
        simp only [mergeField]
        by_cases hd : q1 ∈ auction_duplicates
        · simp only [if_pos hd]
          exact getA_setA_ne _ _ _ _ (fun hh => hq hh.symm)
        · simp only [if_neg hd]
          exact getA_setA_ne _ _ _ _ (fun hh => hq hh.symm)
      rw [List.foldl_cons, ih, entryLast]
      cases he : entryLast k es with
      | none => simp [he, hq, hstep]
      | some v => simp [he]

theorem goodEntries_collect_fold (assigns : List JsAssign) :
    ∀ fields : RawFieldMap, GoodEntries fields →
      GoodEntries (assigns.foldl collectAssign fields) := by
  induction assigns with
  | nil => intro fields h; exact h
  | cons a assigns ih =>
    intro fields h
    rw [List.foldl_cons]
    refine ih _ ?_
    intro p hp hdup
    unfold collectAssign at hp
    by_cases hd : a.key ∈ auction_duplicates
    · rw [if_pos hd] at hp
      rcases mem_setA hp with h' | h'
      · refine ⟨getList (getA fields a.key) ++ [a.value], ?_, by simp⟩
        rw [h']
      · exact h p h' hdup
    · rw [if_neg hd] at hp
      rcases mem_setA hp with h' | h'
      · rw [h'] at hdup
        exact absurd hdup hd
      · exact h p h' hdup

theorem goodEntries_collectCall (c : RWidgetsCall) : GoodEntries (collectCall c) :=
  goodEntries_collect_fold c.assigns [] (fun p hp => by cases hp)

theorem nodup_collect_fold (assigns : List JsAssign) :
    ∀ fields : RawFieldMap, (keysA fields).Nodup →
      (keysA (assigns.foldl collectAssign fields)).Nodup := by
  induction assigns with
  | nil => intro fields h; exact h
  | cons a assigns ih =>
    intro fields h
    rw [List.foldl_cons]
    refine ih _ ?_
    unfold collectAssign
    by_cases hd : a.key ∈ auction_duplicates
    · rw [if_pos hd]; exact nodup_keysA_setA h
    · rw [if_neg hd]; exact nodup_keysA_setA h

theorem nodup_collectCall (c : RWidgetsCall) : (keysA (collectCall c)).Nodup :=
  nodup_collect_fold c.assigns [] (by simp [keysA])

theorem mergeCall_dup (k : String) (hk : k ∈ auction_duplicates)
    (raw : RawFieldMap) (c : RWidgetsCall) :
    getA (mergeCall raw c) k =
      if callOccs k c = [] then getA raw k
      else some (FieldVal.multi (getList (getA raw k) ++ callOccs k c)) := by
  unfold mergeCall
  rw [merge_fold_dup k hk _ raw (goodEntries_collectCall c),
    entryOccs_nodup k _ (nodup_collectCall c)]
  unfold collectCall
  rw [collect_fold_dup k hk c.assigns []]
  by_cases ho : assignOccs k c.assigns = []
  · simp [ho, callOccs, getA, getList]
  · simp [ho, callOccs, getA, getList]

theorem mergeCall_scalar (k : String) (hk : k ∉ auction_duplicates)
    (raw : RawFieldMap) (c : RWidgetsCall) :
    getA (mergeCall raw c) k =
      match lastOcc (callOccs k c) with
      | none => getA raw k
      | some v => some (FieldVal.scalar v) := by
  unfold mergeCall
  rw [merge_fold_scalar k hk _ raw, entryLast_nodup k _ (nodup_collectCall c)]
  unfold collectCall
  rw [collect_fold_scalar k hk c.assigns []]
  cases ho : lastOcc (assignOccs k c.assigns) with
  | none => simp [ho, callOccs, getA]
  | some v => simp [ho, callOccs]

theorem lastOcc_append (xs ys : List String) :
    lastOcc (xs ++ ys) =
      match lastOcc ys with
      | none => lastOcc xs
      | some y => some y := by
  induction xs with
  | nil =>
    cases h : lastOcc ys <;> simp [h, lastOcc]
  | cons x xs ih =>
    rw [List.cons_append, lastOcc, ih]
    cases hy : lastOcc ys with
    | none => simp [lastOcc]
    | some y => simp [lastOcc]

/-- Occurrences of key `k` across a list of calls, in order. -/
def callsOccs (k : String) (calls : List RWidgetsCall) : List String :=
  (calls.map (callOccs k)).flatten

theorem calls_fold_dup (k : String) (hk : k ∈ auction_duplicates)
    (calls : List RWidgetsCall) :
    ∀ raw : RawFieldMap,
      getA (calls.foldl mergeCall raw) k =
        if callsOccs k calls = [] then getA raw k
        else some (FieldVal.multi (getList (getA raw k) ++ callsOccs k calls)) := by
  induction calls with
  | nil => intro raw; simp [callsOccs]
  | cons c calls ih =>
    intro raw
    rw [List.foldl_cons, ih, mergeCall_dup k hk raw c]
    have hocc : callsOccs k (c :: calls) = callOccs k c ++ callsOccs k calls := by
      simp [callsOccs]
    by_cases h1 : callOccs k c = []
    · by_cases h2 : callsOccs k calls = []
      · simp [hocc, h1, h2]
      · simp [hocc, h1, h2]
    · by_cases h2 : callsOccs k calls = []
      · simp [hocc, h1, h2, getA_setA_self]
      · have hne : callOccs k c ++ callsOccs k calls ≠ [] := by simp [h1]
        simp [hocc, h1, h2, hne, getList, List.append_assoc]

theorem calls_fold_scalar (k : String) (hk : k ∉ auction_duplicates)
    (calls : List RWidgetsCall) :
    ∀ raw : RawFieldMap,
      getA (calls.foldl mergeCall raw) k =
        match lastOcc (callsOccs k calls) with
        | none => getA raw k
        | some v => some (FieldVal.scalar v) := by
  induction calls with
  | nil => intro raw; simp [callsOccs, lastOcc]
  | cons c calls ih =>
    intro raw
    rw [List.foldl_cons, ih, mergeCall_scalar k hk raw c]
    have hocc : callsOccs k (c :: calls) = callOccs k c ++ callsOccs k calls := by
      simp [callsOccs]
    rw [hocc, lastOcc_append]
    cases h2 : lastOcc (callsOccs k calls) with
    | none => cases h1 : lastOcc (callOccs k c) <;> simp
    | some v => simp

theorem processScript_ok_dup (k : String) (hk : k ∈ auction_duplicates)
    {raw raw' : RawFieldMap} {s : Script}
    (h : processScript raw s = Except.ok raw') :
    getA raw' k =
      if scriptOccs k s = [] then getA raw k
      else some (FieldVal.multi (getList (getA raw k) ++ scriptOccs k s)) := by
  unfold processScript at h
  unfold scriptOccs
  by_cases hm : hasMarker s
  · rw [if_pos hm] at h ⊢
    cases hp : s.parseResult with
    | none => rw [hp] at h; cases h
    | some calls =>
      rw [hp] at h
      cases h
      rw [calls_fold_dup k hk calls raw]
      rfl
  · rw [if_neg hm] at h ⊢
    cases h
    simp

theorem processScript_ok_scalar (k : String) (hk : k ∉ auction_duplicates)
    {raw raw' : RawFieldMap} {s : Script}
    (h : processScript raw s = Except.ok raw') :
    getA raw' k =
      match lastOcc (scriptOccs k s) with
      | none => getA raw k
      | some v => some (FieldVal.scalar v) := by
  unfold processScript at h
  unfold scriptOccs
  by_cases hm : hasMarker s
  · rw [if_pos hm] at h ⊢
    cases hp : s.parseResult with
    | none => rw [hp] at h; cases h
    | some calls =>
      rw [hp] at h
      cases h
      rw [calls_fold_scalar k hk calls raw]
      rfl
  · rw [if_neg hm] at h ⊢
    cases h
    simp [lastOcc]

theorem extract_fold_dup (k : String) (hk : k ∈ auction_duplicates)
    (scripts : List Script) :
    ∀ raw m : RawFieldMap, scripts.foldlM processScript raw = Except.ok m →
      getA m k =
        if pageOccs k scripts = [] then getA raw k
        else some (FieldVal.multi (getList (getA raw k) ++ pageOccs k scripts)) := by
  induction scripts with
  | nil =>
    intro raw m h
    simp only [List.foldlM_nil] at h
    cases h
    simp [pageOccs]
  | cons s scripts ih =>
    intro raw m h
    simp only [List.foldlM_cons] at h
    cases hs : processScript raw s with
    | error e => rw [hs] at h; cases h
    | ok raw' =>
      rw [hs] at h
      have h2x : scripts.foldlM processScript raw' = Except.ok m := h
      have hstep := processScript_ok_dup k hk hs
      have hrest := ih raw' m h2x
      have hocc : pageOccs k (s :: scripts) = scriptOccs k s ++ pageOccs k scripts := by
        simp [pageOccs]
      rw [hrest, hstep, hocc]
      by_cases h1 : scriptOccs k s = []
      · by_cases h2 : pageOccs k scripts = []
        · simp [h1, h2]
        · simp [h1, h2]
      · by_cases h2 : pageOccs k scripts = []
        · simp [h1, h2]
        · have hne : scriptOccs k s ++ pageOccs k scripts ≠ [] := by simp [h1]
          simp [h1, h2, hne, getList, List.append_assoc]

theorem extract_fold_scalar (k : String) (hk : k ∉ auction_duplicates)
    (scripts : List Script) :
    ∀ raw m : RawFieldMap, scripts.foldlM processScript raw = Except.ok m →
      getA m k =
        match lastOcc (pageOccs k scripts) with
        | none => getA raw k
        | some v => some (FieldVal.scalar v) := by
  induction scripts with
  | nil =>
    intro raw m h
    simp only [List.foldlM_nil] at h
    cases h
    simp [pageOccs, lastOcc]
  | cons s scripts ih =>
    intro raw m h
    simp only [List.foldlM_cons] at h
    cases hs : processScript raw s with
    | error e => rw [hs] at h; cases h
    | ok raw' =>
      rw [hs] at h
      have h2x : scripts.foldlM processScript raw' = Except.ok m := h
      have hstep := processScript_ok_scalar k hk hs
      have hrest := ih raw' m h2x
      have hocc : pageOccs k (s :: scripts) = scriptOccs k s ++ pageOccs k scripts := by
        simp [pageOccs]
      rw [hrest, hstep, hocc, lastOcc_append]
      cases h2 : lastOcc (pageOccs k scripts) with
      | none => cases h1 : lastOcc (scriptOccs k s) <;> simp
      | some v => simp

/-- C1: during embedded-field extraction, each occurrence of a key in the
designated multi-valued set found in any marker call appends its value to
that key's sequence in encounter order across all marker calls in
document order, while each occurrence of any other key overwrites the
previous scalar value (last-write-wins). -/
theorem c1_extract_merge_order (scripts : List Script) (m : RawFieldMap)
    (h : extractRawFields scripts = Except.ok m) (k : String) :
    (k ∈ auction_duplicates →
      getA m k =
        if pageOccs k scripts = [] then none
        else some (FieldVal.multi (pageOccs k scripts))) ∧
    (k ∉ auction_duplicates →
      getA m k =
        match lastOcc (pageOccs k scripts) with
        | none => none
        | some v => some (FieldVal.scalar v)) := by
  constructor
  · intro hk
    have hc := extract_fold_dup k hk scripts [] m h
    simpa [getA, getList] using hc
  · intro hk
    have hc := extract_fold_scalar k hk scripts [] m h
    simpa [getA] using hc

/-- First concrete script of the two-marker-call example page. -/
def scriptC1a : Script :=
  { text := "$rwidgets(a)",
    parseResult := some [⟨[⟨"maxImageUrl", "x1"⟩, ⟨"it", "t1"⟩]⟩] }

/-- Second concrete script of the two-marker-call example page. -/
def scriptC1b : Script :=
  { text := "$rwidgets(b)",
    parseResult := some [⟨[⟨"maxImageUrl", "x2"⟩, ⟨"it", "t2"⟩]⟩] }

/-- Raw field map extracted from the two-script example page. -/
def mC1 : RawFieldMap :=
  [("maxImageUrl", FieldVal.multi ["x1", "x2"]), ("it", FieldVal.scalar "t2")]

/-- Witness for C1: on a page with two marker calls setting the
multi-valued key `maxImageUrl` with `x1` then `x2`, the merged sequence
is `[x1, x2]`, while the scalar key `it` is last-write-wins. -/
theorem c1_witness :
    getA mC1 "maxImageUrl" = some (FieldVal.multi ["x1", "x2"]) ∧
    getA mC1 "it" = some (FieldVal.scalar "t2") := by
  have h : extractRawFields [scriptC1a, scriptC1b] = Except.ok mC1 := rfl
  have hbig := c1_extract_merge_order [scriptC1a, scriptC1b] mC1 h
  constructor
  · have hd := (hbig "maxImageUrl").1 (by decide)
    rw [hd]
    rfl
  · have hs := (hbig "it").2 (by decide)
    rw [hs]
    rfl

/-- A marker-bearing script whose slimit parse raises. -/
def scriptC2bad : Script := { text := "$rwidgets((", parseResult := none }

/-- A well-formed marker-bearing script on the same page. -/
def scriptC2good : Script :=
  { text := "$rwidgets(ok)", parseResult := some [⟨[⟨"it", "t"⟩]⟩] }

/-- C2 counterexample: on a page whose first marker script fails to
parse, extraction does not skip the block and return the partial map
built from the remaining good block — it propagates the failure, even
though the good block alone yields a non-empty map. -/
theorem c2_counterexample :
    extractRawFields [scriptC2bad, scriptC2good] = Except.error () ∧
    extractRawFields [scriptC2good] = Except.ok [("it", FieldVal.scalar "t")] := by
  exact ⟨rfl, rfl⟩

theorem foldlM_error_of_bad (s : Script) (hm : hasMarker s = true)
    (hp : s.parseResult = none) :
    ∀ scripts : List Script, s ∈ scripts →
      ∀ raw : RawFieldMap, scripts.foldlM processScript raw = Except.error () := by
  intro scripts
  induction scripts with
  | nil => intro hmem; cases hmem
  | cons s0 ss ih =>
    intro hmem raw
    rw [List.foldlM_cons]
    rcases List.mem_cons.mp hmem with he | hmem'
    · subst he
      have hbad : processScript raw s = Except.error () := by
        unfold processScript
        rw [if_pos hm, hp]
      rw [hbad]
      rfl
    · cases hs : processScript raw s0 with
      | error e =>
        cases e
        rfl
      | ok raw' =>
        exact ih hmem' raw'

/-- C2 amended: a marker-bearing script block that fails to parse as
JavaScript is not caught; the parse failure propagates out of
embedded-field extraction and no partial field map built from the other
blocks is returned. -/
theorem c2_amended_parse_failure_propagates (scripts : List Script) (s : Script)
    (hmem : s ∈ scripts) (hm : hasMarker s = true) (hp : s.parseResult = none) :
    extractRawFields scripts = Except.error () :=
  foldlM_error_of_bad s hm hp scripts hmem []

/-- Witness for the amended C2, at the concrete two-script page. -/
theorem c2_witness : extractRawFields [scriptC2bad, scriptC2good] = Except.error () :=
  c2_amended_parse_failure_propagates [scriptC2bad, scriptC2good] scriptC2bad
    (List.mem_cons_self _ _) (by decide) rfl

/-- ASCII whitespace stripped by Python's numeric constructors. -/
def isPySpace (c : Char) : Bool :=
  c = ' ' || c = '\t' || c = '\n' || c = '\r' || c = '\x0b' || c = '\x0c'

/-- Strip surrounding whitespace from a character list. -/
def trimChars (cs : List Char) : List Char :=
  ((cs.dropWhile isPySpace).reverse.dropWhile isPySpace).reverse

/-- Validity of the tail of a Python digit run: digits with single
grouping underscores only between digits. -/
def groupedRest : List Char → Bool
  | [] => true
  | c :: cs =>
    if c.isDigit then groupedRest cs
    else if c = '_' then
      match cs with
      | [] => false
      | d :: cs2 => d.isDigit && groupedRest cs2
    else false

/-- A non-empty decimal digit run with optional grouping underscores. -/
def isGroupedDigits : List Char → Bool
  | [] => false
  | c :: cs => c.isDigit && groupedRest cs

/-- Numeric value of the digits of a run (underscores skipped). -/
def digitsToNat (cs : List Char) : Nat :=
  (cs.filter Char.isDigit).foldl (fun n c => n * 10 + (c.toNat - '0'.toNat)) 0

/-- Model of Python's built-in `int()` applied to a string: surrounding
ASCII whitespace is stripped, then an optional sign must precede a
decimal digit run. Any other shape raises ValueError, modelled as none. -/
def pyInt (s : String) : Option Int :=
  match trimChars s.toList with
  | '+' :: rest => if isGroupedDigits rest then some (digitsToNat rest) else none
  | '-' :: rest => if isGroupedDigits rest then some (-(digitsToNat rest : Int)) else none
  | cs => if isGroupedDigits cs then some (digitsToNat cs) else none

/-- A Python float value. A finite value is modelled as the exact
rational denoted by the literal; IEEE-754 rounding is not modelled (no
claim depends on the numeric value of a float). -/
inductive PyFloat where
  | finite (q : Rat)
  | inf (neg : Bool)
  | nan
deriving DecidableEq

/-- Split a character list at the first exponent marker. -/
def splitExp : List Char → List Char × Option (List Char)
  | [] => ([], none)
  | c :: cs =>
    if c = 'e' ∨ c = 'E' then ([], some cs)
    else
      let (m, e) := splitExp cs
      (c :: m, e)

/-- Split a character list at the first decimal point. -/
def splitDot : List Char → List Char × Option (List Char)
  | [] => ([], none)
  | c :: cs =>
    if c = '.' then ([], some cs)
    else
      let (m, e) := splitDot cs
      (c :: m, e)

/-- Number of digits in a run (ignoring grouping underscores). -/
def digitCount (cs : List Char) : Nat := (cs.filter Char.isDigit).length

/-- Mantissa of a float literal: digits, digits `.` digits, digits `.`,
or `.` digits. -/
def parseMantissa (cs : List Char) : Option Rat :=
  match splitDot cs with
  | (ip, none) => if isGroupedDigits ip then some ((digitsToNat ip : Int) : Rat) else none
  | (ip, some fp) =>
    if (ip.isEmpty || isGroupedDigits ip) && (fp.isEmpty || isGroupedDigits fp)
        && !(ip.isEmpty && fp.isEmpty) then
      some (((digitsToNat ip : Int) : Rat) +
        ((digitsToNat fp : Int) : Rat) / ((10 : Rat) ^ digitCount fp))
    else none

/-- Exponent of a float literal: optional sign and a digit run. -/
def parseExp (cs : List Char) : Option Int :=
  match cs with
  | '+' :: rest => if isGroupedDigits rest then some (digitsToNat rest) else none
  | '-' :: rest => if isGroupedDigits rest then some (-(digitsToNat rest : Int)) else none
  | rest => if isGroupedDigits rest then some (digitsToNat rest) else none

/-- Unsigned part of Python's `float()` grammar, including the
case-insensitive special values. -/
def pyFloatCore (cs : List Char) : Option PyFloat :=
  let low := cs.map Char.toLower
  if low = "inf".toList ∨ low = "infinity".toList then some (PyFloat.inf false)
  else if low = "nan".toList then some PyFloat.nan
  else
    match splitExp cs with
    | (mant, none) => (parseMantissa mant).map PyFloat.finite
    | (mant, some ex) =>
      match parseMantissa mant, parseExp ex with
      | some q, some e => some (PyFloat.finite (q * (10 : Rat) ^ e))
      | _, _ => none

/-- Model of Python's built-in `float()` applied to a string. -/
def pyFloat (s : String) : Option PyFloat :=
  match trimChars s.toList with
  | '+' :: rest => pyFloatCore rest
  | '-' :: rest =>
    match pyFloatCore rest with
    | some (PyFloat.finite q) => some (PyFloat.finite (-q))
    | some (PyFloat.inf _) => some (PyFloat.inf true)
    | some PyFloat.nan => some PyFloat.nan
    | none => none
  | cs => pyFloatCore cs

/-- Dynamic value retrieved by `dictionary.get(key, default)`: a raw
string, a Python int (the integer defaults 0 and 1 used by callers),
None, or a list (a multi-valued entry). -/
inductive PyIn where
  | pstr (s : String)
  | pint (n : Int)
  | pnone
  | plist (l : List String)
deriving DecidableEq

/-- Result of the loose-literal coercion chain. -/
inductive PyVal where
  | vbool (b : Bool)
  | vnull
  | vint (n : Int)
  | vfloat (f : PyFloat)
  | vstr (s : String)
  | vlist (l : List String)
deriving DecidableEq

/-- `int(value)` as used in the chain: a string is parsed, an int passes
through, None and lists raise TypeError (caught by the chain). -/
def pyIntOf : PyIn → Option Int
  | PyIn.pstr s => pyInt s
  | PyIn.pint n => some n
  | PyIn.pnone => none
  | PyIn.plist _ => none

/-- `float(value)` as used in the chain. -/
def pyFloatOf : PyIn → Option PyFloat
  | PyIn.pstr s => pyFloat s
  | PyIn.pint n => some (PyFloat.finite (n : Rat))
  | PyIn.pnone => none
  | PyIn.plist _ => none

/-- The raw value returned unchanged by the final fallback. -/
def pyValOf : PyIn → PyVal
  | PyIn.pstr s => PyVal.vstr s
  | PyIn.pint n => PyVal.vint n
  | PyIn.pnone => PyVal.vnull
  | PyIn.plist l => PyVal.vlist l

/-- Body of `__get_dict_value` after the lookup (lines 104-118): the
boolean literals, then the null forms, then an integer parse, then a
float parse, then the value unchanged. -/
def coerceValue (value : PyIn) : PyVal :=
  if value = PyIn.pstr "true" then PyVal.vbool true
  else if value = PyIn.pstr "false" then PyVal.vbool false
  else if value = PyIn.pstr "null" ∨ value = PyIn.pnone then PyVal.vnull
  else
    match pyIntOf value with
    | some n => PyVal.vint n
    | none =>
      match pyFloatOf value with
      | some f => PyVal.vfloat f
      | none => pyValOf value

/-- `value = dictionary.get(key, default)` (line 103). -/
def dictGet (raw : RawFieldMap) (key : String) (default : PyIn) : PyIn :=
  match getA raw key with
  | some (FieldVal.scalar s) => PyIn.pstr s
  | some (FieldVal.multi l) => PyIn.plist l
  | none => default

/-- `__get_dict_value` (lines 101-118). -/
def get_dict_value (raw : RawFieldMap) (key : String) (default : PyIn) : PyVal :=
  coerceValue (dictGet raw key default)

/-- C3: the loose-literal coercion is total over raw-string-or-absent
inputs and applies exactly the ordered chain: literal "true"/"false" map
to booleans, "null" or an absent value map to null, otherwise an integer
parse is attempted, otherwise a float parse, otherwise the original
string is returned unchanged (identity for strings matching none of the
literal forms). -/
theorem c3_get_dict_value_chain :
    (coerceValue (PyIn.pstr "true") = PyVal.vbool true) ∧
    (coerceValue (PyIn.pstr "false") = PyVal.vbool false) ∧
    (coerceValue (PyIn.pstr "null") = PyVal.vnull) ∧
    (coerceValue PyIn.pnone = PyVal.vnull) ∧
    (∀ raw k, getA raw k = none → get_dict_value raw k PyIn.pnone = PyVal.vnull) ∧
    (∀ s n, s ≠ "true" → s ≠ "false" → s ≠ "null" → pyInt s = some n →
      coerceValue (PyIn.pstr s) = PyVal.vint n) ∧
    (∀ s f, s ≠ "true" → s ≠ "false" → s ≠ "null" → pyInt s = none →
      pyFloat s = some f → coerceValue (PyIn.pstr s) = PyVal.vfloat f) ∧
    (∀ s, s ≠ "true" → s ≠ "false" → s ≠ "null" → pyInt s = none →
      pyFloat s = none → coerceValue (PyIn.pstr s) = PyVal.vstr s) := by
  refine ⟨rfl, rfl, rfl, rfl, ?_, ?_, ?_, ?_⟩
  · intro raw k h
    unfold get_dict_value dictGet
    rw [h]
    rfl
  · intro s n h1 h2 h3 h4
    simp [coerceValue, h1, h2, h3, pyIntOf, h4]
  · intro s f h1 h2 h3 h4 h5
    simp [coerceValue, h1, h2, h3, pyIntOf, pyFloatOf, h4, h5]
  · intro s h1 h2 h3 h4 h5
    simp [coerceValue, h1, h2, h3, pyIntOf, pyFloatOf, pyValOf, h4, h5]

/-- Witness for C3 at concrete inputs: an integer literal is coerced and
an opaque string round-trips unchanged. -/
theorem c3_witness :
    coerceValue (PyIn.pstr "737") = PyVal.vint 737 ∧
    coerceValue (PyIn.pstr "urls4u") = PyVal.vstr "urls4u" := by
  constructor
  · exact c3_get_dict_value_chain.2.2.2.2.2.1 "737" 737
      (by decide) (by decide) (by decide) (by decide)
  · exact c3_get_dict_value_chain.2.2.2.2.2.2.2 "urls4u"
      (by decide) (by decide) (by decide) (by decide) (by decide)

/-- The fields of a Python `datetime` value (UTC, no tzinfo). -/
structure PyDatetime where
  year : Int
  month : Int
  day : Int
  hour : Int
  minute : Int
  second : Int
  microsecond : Int
deriving DecidableEq

/-- Proleptic Gregorian date from days since 1970-01-01, by the era-based
civil-from-days algorithm with floored division. -/
def civilFromDays (z0 : Int) : Int × Int × Int :=
  let z := z0 + 719468
  let era := z.ediv 146097
  let doe := z - era * 146097
  let yoe := (doe - doe.ediv 1460 + doe.ediv 36524 - doe.ediv 146096).ediv 365
  let y := yoe + era * 400
  let doy := doe - (365 * yoe + yoe.ediv 4 - yoe.ediv 100)
  let mp := (5 * doy + 2).ediv 153
  let d := doy - (153 * mp + 2).ediv 5 + 1
  let m := mp + (if mp < 10 then 3 else -9)
  (y + (if m ≤ 2 then 1 else 0), m, d)

/-- Smallest seconds value of the signed 64-bit platform `time_t`: a
timestamp below it makes CPython's conversion raise OverflowError. -/
def timeTMin : Int := -(2 ^ 63)

/-- Largest seconds value of the signed 64-bit platform `time_t`. -/
def timeTMax : Int := 2 ^ 63 - 1

/-- Largest calendar year whose `year - 1900` fits the C `struct tm`'s
int `tm_year` field: beyond it the platform `gmtime` fails with
EOVERFLOW, surfaced by CPython as an (uncaught here) OSError. -/
def tmYearMax : Int := 2147485547

/-- Smallest calendar year representable in the C `tm_year` field. -/
def tmYearMin : Int := -2147481748

/-- Outcome of `datetime.utcfromtimestamp` on a 64-bit platform: a
datetime whose year lies in 1..9999; a ValueError for a representable
instant whose year falls outside 1..9999 (caught at line 196); or a
range failure — OverflowError beyond `time_t` (which also subsumes the
float overflow of `int(timestamp) / 1000` for astronomically large
integers) or OSError from `gmtime` beyond the `tm_year` range — that
`except (TypeError, ValueError)` does not catch. -/
inductive UtcResult where
  | dt (d : PyDatetime)
  | yearError
  | rangeError
deriving DecidableEq

/-- Model of `datetime.utcfromtimestamp(int(timestamp) / 1000)` at line
195 on a 64-bit platform: the true-division argument is the exact
rational ms/1000, so the seconds are floored and the millisecond
remainder supplies the microsecond field. Seconds beyond `time_t` or
years beyond the `tm_year` range fail uncaught (`rangeError`); years
outside 1..9999 raise the ValueError caught at line 196 (`yearError`).
Float rounding at the extreme `time_t` boundary is not modelled. -/
def utcfromtimestampMs (ms : Int) : UtcResult :=
  let secs := ms.ediv 1000
  if secs < timeTMin ∨ secs > timeTMax then UtcResult.rangeError
  else
    let micro := (ms.emod 1000) * 1000
    let days := secs.ediv 86400
    let sod := secs.emod 86400
    let ymd := civilFromDays days
    if ymd.1 < tmYearMin ∨ ymd.1 > tmYearMax then UtcResult.rangeError
    else if ymd.1 < 1 ∨ ymd.1 > 9999 then UtcResult.yearError
    else UtcResult.dt
      { year := ymd.1, month := ymd.2.1, day := ymd.2.2,
        hour := sod.ediv 3600, minute := (sod.emod 3600).ediv 60,
        second := sod.emod 60, microsecond := micro }

/-- `__parse_timestamp` (lines 192-198): `int(None)` and `int(list)`
raise TypeError, `int` of a non-numeric string raises ValueError, and a
numeric instant whose year falls outside 1..9999 raises ValueError from
`utcfromtimestamp`; all of those are caught by
`except (TypeError, ValueError)` and logged, returning None. An
OverflowError or OSError for a timestamp beyond the platform range is
not caught and propagates to the caller. -/
def parse_timestamp (v : Option FieldVal) : Except Unit (Option PyDatetime) :=
  match v with
  | some (FieldVal.scalar s) =>
    match pyInt s with
    | some n =>
      match utcfromtimestampMs n with
      | UtcResult.dt d => Except.ok (some d)
      | UtcResult.yearError => Except.ok none
      | UtcResult.rangeError => Except.error ()
    | none => Except.ok none
  | _ => Except.ok none

/-- C6: timestamp parsing maps a string of milliseconds since the epoch
to the corresponding absolute timestamp — "1700000000000" yields
2023-11-14T22:13:20Z — and every non-numeric or missing input yields
null after logging, with no exception escaping. -/
theorem c6_parse_timestamp :
    parse_timestamp (some (FieldVal.scalar "1700000000000")) =
      Except.ok (some
        { year := 2023
          month := 11
          day := 14
          hour := 22
          minute := 13
          second := 20
          microsecond := 0 }) ∧
    (∀ s, pyInt s = none →
      parse_timestamp (some (FieldVal.scalar s)) = Except.ok none) ∧
    parse_timestamp none = Except.ok none := by
  refine ⟨rfl, ?_, rfl⟩
  intro s h
  simp [parse_timestamp, h]

/-- Witness for C6: a non-numeric input string yields null without an
escaping exception. -/
theorem c6_witness :
    parse_timestamp (some (FieldVal.scalar "162e4")) = Except.ok none :=
  c6_parse_timestamp.2.1 "162e4" (by decide)

/-- Value of a hexadecimal digit. -/
def hexVal (c : Char) : Option Nat :=
  if '0' ≤ c ∧ c ≤ '9' then some (c.toNat - '0'.toNat)
  else if 'a' ≤ c ∧ c ≤ 'f' then some (c.toNat - 'a'.toNat + 10)
  else if 'A' ≤ c ∧ c ≤ 'F' then some (c.toNat - 'A'.toNat + 10)
  else none

/-- Decoder for the body of a JSON string literal, modelling
`json.loads(f'"{...}"')` at line 188: a raw quote closes the literal
early and leaves trailing data (an error), a control character or a bad
escape is an error, and an escape maps to its code point (`\uXXXX` via
`Char.ofNat`; surrogate pairs are not modelled — no claim uses them). -/
def jsonDecodeChars : List Char → Option (List Char)
  | [] => some []
  | '"' :: _ => none
  | '\\' :: cs =>
    match cs with
    | '"' :: rest => (jsonDecodeChars rest).map (fun l => '"' :: l)
    | '\\' :: rest => (jsonDecodeChars rest).map (fun l => '\\' :: l)
    | '/' :: rest => (jsonDecodeChars rest).map (fun l => '/' :: l)
    | 'b' :: rest => (jsonDecodeChars rest).map (fun l => '\x08' :: l)
    | 'f' :: rest => (jsonDecodeChars rest).map (fun l => '\x0c' :: l)
    | 'n' :: rest => (jsonDecodeChars rest).map (fun l => '\n' :: l)
    | 'r' :: rest => (jsonDecodeChars rest).map (fun l => '\r' :: l)
    | 't' :: rest => (jsonDecodeChars rest).map (fun l => '\t' :: l)
    | 'u' :: h1 :: h2 :: h3 :: h4 :: rest =>
      match hexVal h1, hexVal h2, hexVal h3, hexVal h4 with
      | some a, some b, some c, some d =>
        (jsonDecodeChars rest).map
          (fun l => Char.ofNat (((a * 16 + b) * 16 + c) * 16 + d) :: l)
      | _, _, _, _ => none
    | _ => none
  | c :: cs =>
    if c.toNat < 32 then none
    else (jsonDecodeChars cs).map (fun l => c :: l)

/-- `json.loads` of the quoted value, as a total function to Option. -/
def pyJsonStringDecode (s : String) : Option String :=
  (jsonDecodeChars s.toList).map List.asString

/-- The object iterated by the zip in `__get_image_urls`: a stored list
iterates over its elements, a stored Python string iterates over its
one-character substrings, an absent key yields the default `[]`. -/
def asIterList (v : Option FieldVal) : List String :=
  match v with
  | some (FieldVal.multi l) => l
  | some (FieldVal.scalar s) => s.toList.map Char.toString
  | none => []

/-- Left-to-right effectful map over Except, as a list comprehension
evaluates its expression: the first raised error aborts. -/
def mapExcept {alpha gamma eps : Type} (g : alpha → Except eps gamma) :
    List alpha → Except eps (List gamma)
  | [] => Except.ok []
  | a :: l =>
    match g a with
    | Except.error e => Except.error e
    | Except.ok b =>
      match mapExcept g l with
      | Except.error e => Except.error e
      | Except.ok bs => Except.ok (b :: bs)

/-- `__get_image_urls` (lines 183-190): zip the two lists positionally,
keep only positions where either value is truthy (non-empty), choose the
primary value unless it is literally "null", and decode the chosen value
as a JSON string literal; a decode failure raises, uncaught. -/
def get_image_urls (raw : RawFieldMap) : Except Unit (List String) :=
  let max_images := asIterList (getA raw "maxImageUrl")
  let display_images := asIterList (getA raw "displayImgUrl")
  mapExcept
    (fun p =>
      match pyJsonStringDecode (if p.1 != "null" then p.1 else p.2) with
      | some u => Except.ok u
      | none => Except.error ())
    ((max_images.zip display_images).filter
      (fun p => p.1 != "" || p.2 != ""))

/-- Stated from the spec's words (§4.4): zip the primary and fallback
lists positionally (truncating to the shorter), at each position pick
the primary unless it is literally "null" (then the fallback), and skip
positions where both values are empty. -/
def specImagePick (primary fallback : List String) : List String :=
  ((primary.zip fallback).filter (fun p => p.1 != "" || p.2 != "")).map
    (fun p => if p.1 != "null" then p.1 else p.2)

theorem mapExcept_map {α β γ ε : Type} (f : α → β) (g : β → Except ε γ)
    (l : List α) : mapExcept g (l.map f) = mapExcept (fun a => g (f a)) l := by
  induction l with
  | nil => rfl
  | cons a l ih => simp [mapExcept, ih]

/-- C5: image URL extraction zips the primary and fallback lists
positionally, picks the primary unless it is literally "null" (then the
fallback), skips positions where both are empty, decodes each chosen
value as an escaped-string literal, and silently truncates to the
shorter list; the spec's two examples evaluate as stated. -/
theorem c5_get_image_urls (raw : RawFieldMap) (ps fs : List String)
    (hp : getA raw "maxImageUrl" = some (FieldVal.multi ps))
    (hf : getA raw "displayImgUrl" = some (FieldVal.multi fs)) :
    (get_image_urls raw =
      mapExcept (fun u =>
        match pyJsonStringDecode u with
        | some d => Except.ok d
        | none => Except.error ()) (specImagePick ps fs)) ∧
    (specImagePick ps fs).length ≤ min ps.length fs.length ∧
    get_image_urls
      [("maxImageUrl", FieldVal.multi ["url1", "null"]),
       ("displayImgUrl", FieldVal.multi ["", "url2"])] =
      Except.ok ["url1", "url2"] ∧
    get_image_urls
      [("maxImageUrl", FieldVal.multi []),
       ("displayImgUrl", FieldVal.multi [])] = Except.ok [] := by
  refine ⟨?_, ?_, rfl, rfl⟩
  · unfold get_image_urls specImagePick asIterList
    rw [hp, hf, mapExcept_map]
  · have h1 := List.length_filter_le
      (fun p : String × String => p.1 != "" || p.2 != "") (ps.zip fs)
    simpa [specImagePick, List.length_zip] using h1

/-- Witness for C5 at the spec's example lists. -/
theorem c5_witness :
    get_image_urls
      [("maxImageUrl", FieldVal.multi ["url1", "null"]),
       ("displayImgUrl", FieldVal.multi ["", "url2"])] =
      mapExcept (fun u =>
        match pyJsonStringDecode u with
        | some d => Except.ok d
        | none => Except.error ()) (specImagePick ["url1", "null"] ["", "url2"]) :=
  (c5_get_image_urls
    [("maxImageUrl", FieldVal.multi ["url1", "null"]),
     ("displayImgUrl", FieldVal.multi ["", "url2"])]
    ["url1", "null"] ["", "url2"] rfl rfl).1

/-- Modelled from the spec (§6, external interfaces): the
`sqlalchemy_utils.Currency` validator, which is not part of this
repository — it accepts exactly the recognized ISO-4217 codes, modelled
here on a representative subset; failure raises ValueError. -/
def iso4217 : List String :=
  ["USD", "EUR", "GBP", "JPY", "CNY", "AUD", "CAD", "CHF"]

/-- `__parse_currency` (lines 200-206): `Currency(None)` and
`Currency(list)` raise TypeError, an unrecognized code raises
ValueError; both are caught and logged, returning None. -/
def parse_currency (v : Option FieldVal) : Option String :=
  match v with
  | some (FieldVal.scalar s) => if s ∈ iso4217 then some s else none
  | _ => none

/-- Placeholder for `unicodedata.normalize("NFKD", s)`: the
normalization itself is not modelled (no claim depends on the
normalized text), only that it maps a string to a string and raises
TypeError on a non-string argument. -/
def nfkd (s : String) : String := s

/-- The assembled auction record (the fields set at lines 126-143).
Fields read with plain `.get(key, '')` keep the raw dynamic value. -/
structure EbayAuction where
  id : Int
  title : String
  description : String
  seller_id : FieldVal
  start_time : Option PyDatetime
  end_time : Option PyDatetime
  n_bids : PyVal
  currency : Option String
  latest_price : PyVal
  buy_now_price : PyVal
  image_urls : String
  locale : FieldVal
  quantity : PyVal
  video_url : FieldVal
  vat_included : Bool
  domain : FieldVal
deriving DecidableEq

/-- `raw_values.get(k, '')` for the fields stored without coercion. -/
def getRawD (raw : RawFieldMap) (k : String) : FieldVal :=
  (getA raw k).getD (FieldVal.scalar "")

/-- `int(raw_values.get('itemId', 0))` (line 126): the bare `int()` call
is not guarded — a non-numeric string raises ValueError and a list
raises TypeError, both uncaught. -/
def itemIdInt (raw : RawFieldMap) : Option Int :=
  match getA raw "itemId" with
  | none => some 0
  | some (FieldVal.scalar s) => pyInt s
  | some (FieldVal.multi _) => none

/-- `unicodedata.normalize("NFKD", raw_values.get('it', ''))` (line
127): normalize raises TypeError on a list, uncaught. -/
def titleNorm (raw : RawFieldMap) : Option String :=
  match getA raw "it" with
  | none => some (nfkd "")
  | some (FieldVal.scalar s) => some (nfkd s)
  | some (FieldVal.multi _) => none

/-- `__parse_auction_soup` (lines 120-145), given the raw field map and
the separately extracted description. The only uncaught exceptions are
the bare `int()` on `itemId`, `normalize` on a non-string title, a JSON
decode failure inside `__get_image_urls`, and the OverflowError/OSError
from `utcfromtimestamp` on a timestamp beyond the platform range; every
other coercion failure is recovered per field. -/
def parse_auction_soup (raw : RawFieldMap) (description : String) :
    Except Unit EbayAuction :=
  match itemIdInt raw, titleNorm raw, get_image_urls raw,
      parse_timestamp (getA raw "startTime"),
      parse_timestamp (getA raw "endTime") with
  | some idv, some title, Except.ok urls, Except.ok st, Except.ok et =>
    Except.ok
      { id := idv
        title := title
        description := description
        seller_id := getRawD raw "entityName"
        start_time := st
        end_time := et
        n_bids := get_dict_value raw "bids" (PyIn.pint 0)
        currency := parse_currency (getA raw "ccode")
        latest_price := get_dict_value raw "bidPriceDouble" PyIn.pnone
        buy_now_price := get_dict_value raw "binPriceDouble" PyIn.pnone
        image_urls := String.intercalate " " urls
        locale := getRawD raw "locale"
        quantity := get_dict_value raw "totalQty" (PyIn.pint 1)
        video_url := getRawD raw "videoUrl"
        vat_included := getA raw "vatIncluded" == some (FieldVal.scalar "true")
        domain := getRawD raw "currentDomain" }
  | _, _, _, _, _ => Except.error ()

/-- C4 counterexample: a raw field map whose `itemId` is the non-numeric
string "abc" makes record assembly abort — the bare `int()` at line 126
raises ValueError — and so does a numeric `startTime` of 10^30
milliseconds, whose conversion raises an OverflowError that the
`except (TypeError, ValueError)` at line 196 does not catch;
contradicting the claim that a bad timestamp or a non-numeric value in
any field is recovered locally. -/
theorem c4_counterexample :
    parse_auction_soup [("itemId", FieldVal.scalar "abc")] "" = Except.error () ∧
    parse_auction_soup
      [("startTime", FieldVal.scalar "1000000000000000000000000000000")] "" =
      Except.error () :=
  ⟨rfl, rfl⟩

/-- C4 amended: record assembly never aborts on a non-numeric timestamp
or one whose year falls outside the calendar range 1..9999, an
unrecognized currency, or a non-numeric value in any field other than
the identifier: those are recovered by logging and substituting null or
the field default. Assembly aborts only when a present `itemId` fails
the bare integer parse, when a numeric timestamp lies beyond the
platform range (uncaught OverflowError/OSError from `utcfromtimestamp`),
when the title field holds a non-string, or when a chosen image value
fails escaped-string decoding. -/
theorem c4_assembly_total_except_id (raw : RawFieldMap) (description : String)
    (hid : (itemIdInt raw).isSome) (htitle : (titleNorm raw).isSome)
    (himg : (get_image_urls raw).isOk)
    (hst : (parse_timestamp (getA raw "startTime")).isOk)
    (het : (parse_timestamp (getA raw "endTime")).isOk) :
    ∃ a : EbayAuction, parse_auction_soup raw description = Except.ok a ∧
      parse_timestamp (getA raw "startTime") = Except.ok a.start_time ∧
      parse_timestamp (getA raw "endTime") = Except.ok a.end_time ∧
      a.currency = parse_currency (getA raw "ccode") ∧
      a.n_bids = get_dict_value raw "bids" (PyIn.pint 0) ∧
      a.latest_price = get_dict_value raw "bidPriceDouble" PyIn.pnone ∧
      a.buy_now_price = get_dict_value raw "binPriceDouble" PyIn.pnone ∧
      a.quantity = get_dict_value raw "totalQty" (PyIn.pint 1) := by
  cases hi : itemIdInt raw with
  | none => rw [hi] at hid; cases hid
  | some idv =>
  cases ht : titleNorm raw with
  | none => rw [ht] at htitle; cases htitle
  | some title =>
  cases hg : get_image_urls raw with
  | error e => rw [hg] at himg; cases himg
  | ok urls =>
  cases hs : parse_timestamp (getA raw "startTime") with
  | error e => rw [hs] at hst; cases hst
  | ok st =>
  cases he : parse_timestamp (getA raw "endTime") with
  | error e => rw [he] at het; cases het
  | ok et =>
  have hps : parse_auction_soup raw description = Except.ok
      { id := idv, title := title, description := description,
        seller_id := getRawD raw "entityName",
        start_time := st,
        end_time := et,
        n_bids := get_dict_value raw "bids" (PyIn.pint 0),
        currency := parse_currency (getA raw "ccode"),
        latest_price := get_dict_value raw "bidPriceDouble" PyIn.pnone,
        buy_now_price := get_dict_value raw "binPriceDouble" PyIn.pnone,
        image_urls := String.intercalate " " urls,
        locale := getRawD raw "locale",
        quantity := get_dict_value raw "totalQty" (PyIn.pint 1),
        video_url := getRawD raw "videoUrl",
        vat_included := getA raw "vatIncluded" == some (FieldVal.scalar "true"),
        domain := getRawD raw "currentDomain" } := by
    unfold parse_auction_soup
    rw [hi, ht, hg, hs, he]
  exact ⟨_, hps, rfl, rfl, rfl, rfl, rfl, rfl, rfl⟩

/-- The raw field map of the C4 witness: a non-numeric start time, an
end time in calendar year 10000, an unrecognized currency and a
non-numeric bid count. -/
def rawC4 : RawFieldMap :=
  [("startTime", FieldVal.scalar "soon"),
   ("endTime", FieldVal.scalar "253402300800000"),
   ("ccode", FieldVal.scalar "ZZZ"),
   ("bids", FieldVal.scalar "several")]

/-- Witness for the amended C4: the map still assembles, with every
failed coercion — including the caught year-out-of-range ValueError of
the end time — recovered as null or the field default. -/
theorem c4_witness :
    ∃ a : EbayAuction,
      parse_auction_soup rawC4 "" = Except.ok a ∧
      parse_timestamp (getA rawC4 "startTime") = Except.ok a.start_time ∧
      parse_timestamp (getA rawC4 "endTime") = Except.ok a.end_time ∧
      a.currency = parse_currency (getA rawC4 "ccode") ∧
      a.n_bids = get_dict_value rawC4 "bids" (PyIn.pint 0) ∧
      a.latest_price = get_dict_value rawC4 "bidPriceDouble" PyIn.pnone ∧
      a.buy_now_price = get_dict_value rawC4 "binPriceDouble" PyIn.pnone ∧
      a.quantity = get_dict_value rawC4 "totalQty" (PyIn.pint 1) :=
  c4_assembly_total_except_id rawC4 "" (by decide) (by decide) rfl
    (by decide) (by decide)

/-- C9: the assembled auction's VAT-included flag is true exactly when
the raw field `vatIncluded` is the literal string "true"; any other
value (including casing variants) and an absent field yield false — the
field bypasses the loose-literal coercion chain. -/
theorem c9_vat_included (raw : RawFieldMap) (description : String)
    (a : EbayAuction) (h : parse_auction_soup raw description = Except.ok a) :
    a.vat_included = true ↔ getA raw "vatIncluded" = some (FieldVal.scalar "true") := by
  unfold parse_auction_soup at h
  cases hi : itemIdInt raw <;> rw [hi] at h
  · cases h
  cases ht : titleNorm raw <;> rw [ht] at h
  · cases h
  cases hg : get_image_urls raw <;> rw [hg] at h
  · cases h
  cases hs : parse_timestamp (getA raw "startTime") <;> rw [hs] at h
  · cases h
  cases he : parse_timestamp (getA raw "endTime") <;> rw [he] at h
  · cases h
  cases h
  simp [beq_iff_eq]

/-- The auction assembled from a map holding only a `vatIncluded` entry. -/
def auctionC9base (vat : Bool) : EbayAuction :=
  { id := 0, title := "", description := "", seller_id := FieldVal.scalar "",
    start_time := none, end_time := none, n_bids := PyVal.vint 0,
    currency := none, latest_price := PyVal.vnull, buy_now_price := PyVal.vnull,
    image_urls := "", locale := FieldVal.scalar "", quantity := PyVal.vint 1,
    video_url := FieldVal.scalar "", vat_included := vat,
    domain := FieldVal.scalar "" }

/-- Witness for C9: a map whose `vatIncluded` is "True" (wrong casing)
assembles with the flag false, one with "true" with the flag true. -/
theorem c9_witness :
    parse_auction_soup [("vatIncluded", FieldVal.scalar "True")] "" =
      Except.ok (auctionC9base false) ∧
    (auctionC9base false).vat_included = false ∧
    parse_auction_soup [("vatIncluded", FieldVal.scalar "true")] "" =
      Except.ok (auctionC9base true) ∧
    (auctionC9base true).vat_included = true := by
  have h1 : parse_auction_soup [("vatIncluded", FieldVal.scalar "True")] "" =
      Except.ok (auctionC9base false) := rfl
  have h2 : parse_auction_soup [("vatIncluded", FieldVal.scalar "true")] "" =
      Except.ok (auctionC9base true) := rfl
  refine ⟨h1, ?_, h2, ?_⟩
  · have h := c9_vat_included _ "" _ h1
    by_cases hv : (auctionC9base false).vat_included = true
    · exact absurd (h.mp hv) (by decide)
    · simpa using hv
  · exact (c9_vat_included _ "" _ h2).mpr (by decide)

/-- A parsed page (BeautifulSoup object): `text` is `str(soup)` — the
serialization of the whole document, interpolated by the f-string cache
key — and `scripts` are `soup.find_all('script', src=None)` in document
order. -/
structure Page where
  text : String
  scripts : List Script
deriving DecidableEq

/-- Truthiness of a BeautifulSoup object, as tested by
`if cached_content:`: bs4's `Tag.__bool__` returns True for every tag
("A tag is non-None, even if it has no contents"), so a parsed page is
always truthy. -/
def soupTruthy (_ : Page) : Bool := true

/-- Truthiness of a Python dict: false exactly when empty. -/
def dictTruthy (m : RawFieldMap) : Bool := !m.isEmpty

/-- A value stored in the process-wide `SimpleCache` (lines 26-39):
either a parsed page or an extracted raw field map. -/
inductive CacheVal where
  | page (p : Page)
  | json (m : RawFieldMap)
deriving DecidableEq

/-- The `SimpleCache` backing dict. `get` and `set` are `getA`/`setA`. -/
abbrev Cache := List (String × CacheVal)

/-- `cache.clear()` (lines 36-37). -/
def cacheClear (_ : Cache) : Cache := []

/-- `f"page:{uri}"` (line 71). -/
def pageCacheKey (uri : String) : String := "page:" ++ uri

/-- `f"json:{soup}"` (line 151): the f-string interpolates the soup
object, i.e. the serialization of the whole document — not the script
text. -/
def jsonCacheKey (p : Page) : String := "json:" ++ p.text

/-- Result of `_get_page`: the returned soup, the cache afterwards, and
the number of underlying network fetches performed by the call. -/
structure GetPageResult where
  soup : Page
  cache : Cache
  fetches : Nat
deriving DecidableEq

/-- `_get_page` (lines 67-82), with the network fetch and BeautifulSoup
parse abstracted into `env`: a truthy cached page is returned with no
fetch; otherwise the page is fetched, parsed and stored. A non-page
value under a page key cannot arise (the key namespaces are disjoint,
see the C7 theorems) and is treated as a miss. -/
def get_page (c : Cache) (env : String → Page) (uri : String) : GetPageResult :=
  match getA c (pageCacheKey uri) with
  | some (CacheVal.page p) =>
    if soupTruthy p then { soup := p, cache := c, fetches := 0 }
    else
      { soup := env uri,
        cache := setA c (pageCacheKey uri) (CacheVal.page (env uri)), fetches := 1 }
  | _ =>
    { soup := env uri,
      cache := setA c (pageCacheKey uri) (CacheVal.page (env uri)), fetches := 1 }

/-- Result of `__get_embedded_json` including its cache effect: the
returned map, the cache afterwards, and whether extraction ran. -/
structure GetJsonResult where
  fields : RawFieldMap
  cache : Cache
  ran : Bool
deriving DecidableEq

/-- `__get_embedded_json` (lines 147-181) with its cache: a truthy
cached map is returned as is; otherwise — missing entry or falsy cached
value — extraction runs over the page's scripts and the result is
stored under the `json:` key. A non-json value under a `json:` key
cannot arise (disjoint namespaces) and is treated as a miss. -/
def get_embedded_json (c : Cache) (p : Page) : Except Unit GetJsonResult :=
  match getA c (jsonCacheKey p) with
  | some (CacheVal.json m) =>
    if dictTruthy m then Except.ok { fields := m, cache := c, ran := false }
    else
      match extractRawFields p.scripts with
      | Except.error e => Except.error e
      | Except.ok m' =>
        Except.ok
          { fields := m'
            cache := setA c (jsonCacheKey p) (CacheVal.json m')
            ran := true }
  | _ =>
    match extractRawFields p.scripts with
    | Except.error e => Except.error e
    | Except.ok m' =>
      Except.ok
        { fields := m'
          cache := setA c (jsonCacheKey p) (CacheVal.json m')
          ran := true }

theorem data_append (a b : String) : (a ++ b).data = a.data ++ b.data := by
  cases a
  cases b
  rfl

theorem list_append_cancel_left {α : Type} (l : List α) {b c : List α}
    (h : l ++ b = l ++ c) : b = c := by
  induction l with
  | nil => exact h
  | cons x l ih =>
    injection h with _ h2
    exact ih h2

/-- A marker script used by the two-page cache example. -/
def scriptC7 : Script :=
  { text := "$rwidgets(w)",
    parseResult := some [⟨[⟨"maxImageUrl", "x1"⟩, ⟨"it", "t1"⟩]⟩] }

/-- Example page A: the marker script plus surrounding markup A. -/
def pageC7a : Page := { text := "<html>A $rwidgets(w)</html>", scripts := [scriptC7] }

/-- Example page B: the identical marker script, different markup. -/
def pageC7b : Page := { text := "<html>B $rwidgets(w)</html>", scripts := [scriptC7] }

/-- The raw field map both example pages extract. -/
def mC7 : RawFieldMap :=
  [("maxImageUrl", FieldVal.multi ["x1"]), ("it", FieldVal.scalar "t1")]

/-- C7 counterexample: two pages with identical marker script texts but
different surrounding markup do not share a field-map cache entry — the
key is derived from the whole serialized page (`f"json:{soup}"`), not
from the script text — so after extracting and caching page A,
extraction runs again in full for page B. -/
theorem c7_counterexample :
    pageC7a.scripts = pageC7b.scripts ∧
    jsonCacheKey pageC7a ≠ jsonCacheKey pageC7b ∧
    (get_embedded_json [] pageC7a).map GetJsonResult.ran = Except.ok true ∧
    (get_embedded_json [(jsonCacheKey pageC7a, CacheVal.json mC7)] pageC7b).map
      GetJsonResult.ran = Except.ok true :=
  ⟨rfl, by decide, rfl, rfl⟩

/-- C7 amended: the extracted field map is cached for the life of the
process under `"json:" + str(soup)` — a key derived from the whole
serialized page, in a namespace distinct from the page-URI namespace —
so two pages share a field-map entry exactly when their entire
serialized documents coincide, and page and field-map entries never
collide. -/
theorem c7_amended_cache_key (p q : Page) (uri : String) :
    (jsonCacheKey p = jsonCacheKey q ↔ p.text = q.text) ∧
    pageCacheKey uri ≠ jsonCacheKey p ∧
    (∀ (c : Cache) (r : GetJsonResult), get_embedded_json c p = Except.ok r →
      r.ran = true → getA r.cache (jsonCacheKey p) = some (CacheVal.json r.fields)) := by
  refine ⟨⟨fun h => ?_, fun h => by rw [jsonCacheKey, jsonCacheKey, h]⟩, fun h => ?_, ?_⟩
  · have hd := congrArg String.data h
    rw [jsonCacheKey, jsonCacheKey, data_append, data_append] at hd
    exact String.ext (list_append_cancel_left _ hd)
  · have hd := congrArg String.data h
    rw [pageCacheKey, jsonCacheKey, data_append, data_append] at hd
    rw [show "page:".data = ['p', 'a', 'g', 'e', ':'] from rfl,
        show "json:".data = ['j', 's', 'o', 'n', ':'] from rfl] at hd
    simp at hd
  · intro c r hok hran
    unfold get_embedded_json at hok
    cases hget : getA c (jsonCacheKey p) with
    | none =>
      simp only [hget] at hok
      cases hex : extractRawFields p.scripts with
      | error e => simp only [hex] at hok; cases hok
      | ok m' =>
        simp only [hex] at hok
        cases hok
        simp [getA_setA_self]
    | some v =>
      cases v with
      | page p0 =>
        simp only [hget] at hok
        cases hex : extractRawFields p.scripts with
        | error e => simp only [hex] at hok; cases hok
        | ok m' =>
          simp only [hex] at hok
          cases hok
          simp [getA_setA_self]
      | json m =>
        simp only [hget] at hok
        by_cases hm : dictTruthy m
        · rw [if_pos hm] at hok
          cases hok
          cases hran
        · rw [if_neg hm] at hok
          cases hex : extractRawFields p.scripts with
          | error e => simp only [hex] at hok; cases hok
          | ok m' =>
            simp only [hex] at hok
            cases hok
            simp [getA_setA_self]

/-- Witness for the amended C7 at concrete pages, a concrete URI and a
concrete extraction run. -/
theorem c7_witness :
    (jsonCacheKey pageC7a = jsonCacheKey pageC7b ↔ pageC7a.text = pageC7b.text) ∧
    pageCacheKey "itm/1" ≠ jsonCacheKey pageC7a ∧
    getA (setA [] (jsonCacheKey pageC7a) (CacheVal.json mC7)) (jsonCacheKey pageC7a) =
      some (CacheVal.json mC7) := by
  have h := c7_amended_cache_key pageC7a pageC7b "itm/1"
  refine ⟨h.1, h.2.1, ?_⟩
  have hrun : get_embedded_json [] pageC7a = Except.ok
      { fields := mC7, cache := setA [] (jsonCacheKey pageC7a) (CacheVal.json mC7),
        ran := true } := rfl
  exact h.2.2 [] _ hrun rfl

/-- C8: fetching the same URI twice in sequence, with no intervening
clear, issues exactly one underlying network fetch: the first miss
fetches, stores and returns the parsed page, the second call returns
the cached parsed page with no fetch; the entry is created on the first
miss, no other entry is evicted, and only the explicit full clear
empties the cache. -/
theorem c8_cache_idempotent (c : Cache) (env : String → Page) (uri : String)
    (hmiss : getA c (pageCacheKey uri) = none) :
    (get_page c env uri).fetches = 1 ∧
    (get_page c env uri).soup = env uri ∧
    get_page (get_page c env uri).cache env uri =
      { soup := env uri, cache := (get_page c env uri).cache, fetches := 0 } ∧
    (∀ k, k ≠ pageCacheKey uri →
      getA (get_page c env uri).cache k = getA c k) ∧
    cacheClear (get_page c env uri).cache = [] := by
  have h1 : get_page c env uri =
      { soup := env uri,
        cache := setA c (pageCacheKey uri) (CacheVal.page (env uri)), fetches := 1 } := by
    unfold get_page
    simp only [hmiss]
  rw [h1]
  refine ⟨rfl, rfl, ?_, ?_, rfl⟩
  · unfold get_page
    simp only [getA_setA_self]
    rfl
  · intro k hk
    exact getA_setA_ne _ _ _ _ hk

/-- A concrete fetch environment for the cache witness. -/
def envC8 : String → Page := fun _ => { text := "<html>x</html>", scripts := [] }

/-- Witness for C8: from an empty cache, the first fetch of a URI does
one network fetch and the second call is a pure cache hit. -/
theorem c8_witness :
    (get_page [] envC8 "https-item-1").fetches = 1 ∧
    get_page (get_page [] envC8 "https-item-1").cache envC8 "https-item-1" =
      { soup := envC8 "https-item-1",
        cache := (get_page [] envC8 "https-item-1").cache, fetches := 0 } :=
  ⟨(c8_cache_idempotent [] envC8 "https-item-1" rfl).1,
   (c8_cache_idempotent [] envC8 "https-item-1" rfl).2.2.1⟩

theorem extract_no_marker (scripts : List Script)
    (h : ∀ s ∈ scripts, hasMarker s = false) :
    ∀ raw : RawFieldMap, scripts.foldlM processScript raw = Except.ok raw := by
  induction scripts with
  | nil => intro raw; rfl
  | cons s ss ih =>
    intro raw
    rw [List.foldlM_cons]
    have hs : processScript raw s = Except.ok raw := by
      unfold processScript
      rw [if_neg]
      simp [h s (List.mem_cons_self _ _)]
    rw [hs]
    exact ih (fun s' hs' => h s' (List.mem_cons_of_mem _ hs')) raw

/-- C10: a cached artifact is reused only when it is truthy. The hit
paths test Python truthiness of the stored value, so the empty map
extracted from a page with no marker scripts is stored but — being
falsy — treated as a miss on every later lookup: extraction re-runs in
full on each repeated call for such a page and deterministically
returns an equal empty map each time. The page-side check likewise
reuses a stored artifact only when a truthy page is present. -/
theorem c10_falsy_cache_miss (c : Cache) (p : Page)
    (hnm : ∀ s ∈ p.scripts, hasMarker s = false)
    (hc : getA c (jsonCacheKey p) = none ∨
      getA c (jsonCacheKey p) = some (CacheVal.json [])) :
    get_embedded_json c p = Except.ok
      { fields := [], cache := setA c (jsonCacheKey p) (CacheVal.json []),
        ran := true } ∧
    get_embedded_json (setA c (jsonCacheKey p) (CacheVal.json [])) p = Except.ok
      { fields := []
        cache := setA (setA c (jsonCacheKey p) (CacheVal.json []))
          (jsonCacheKey p) (CacheVal.json [])
        ran := true } ∧
    (∀ (c' : Cache) (q : Page) (r : GetJsonResult),
      get_embedded_json c' q = Except.ok r → r.ran = false →
        dictTruthy r.fields = true) ∧
    (∀ (c' : Cache) (env : String → Page) (uri : String),
      (get_page c' env uri).fetches = 0 →
        ∃ p0, getA c' (pageCacheKey uri) = some (CacheVal.page p0) ∧
          soupTruthy p0 = true) := by
  have hextract : extractRawFields p.scripts = Except.ok [] :=
    extract_no_marker p.scripts hnm []
  refine ⟨?_, ?_, ?_, ?_⟩
  · unfold get_embedded_json
    rcases hc with hc | hc
    · simp only [hc, hextract]
    · simp only [hc, hextract, dictTruthy, List.isEmpty_nil, Bool.not_true,
        Bool.false_eq_true, if_false]
  · unfold get_embedded_json
    simp only [getA_setA_self, hextract, dictTruthy, List.isEmpty_nil,
      Bool.not_true, Bool.false_eq_true, if_false]
  · intro c' q r hok hran
    unfold get_embedded_json at hok
    cases hget : getA c' (jsonCacheKey q) with
    | none =>
      simp only [hget] at hok
      cases hex : extractRawFields q.scripts with
      | error e => simp only [hex] at hok; cases hok
      | ok m' =>
        simp only [hex] at hok
        cases hok
        cases hran
    | some v =>
      cases v with
      | page p0 =>
        simp only [hget] at hok
        cases hex : extractRawFields q.scripts with
        | error e => simp only [hex] at hok; cases hok
        | ok m' =>
          simp only [hex] at hok
          cases hok
          cases hran
      | json m =>
        simp only [hget] at hok
        by_cases hm : dictTruthy m
        · rw [if_pos hm] at hok
          cases hok
          exact hm
        · rw [if_neg hm] at hok
          cases hex : extractRawFields q.scripts with
          | error e => simp only [hex] at hok; cases hok
          | ok m' =>
            simp only [hex] at hok
            cases hok
            cases hran
  · intro c' env uri hz
    unfold get_page at hz
    cases hget : getA c' (pageCacheKey uri) with
    | none => simp only [hget] at hz; cases hz
    | some v =>
      cases v with
      | page p0 =>
        exact ⟨p0, rfl, rfl⟩
      | json m =>
        simp only [hget] at hz
        cases hz

/-- The empty example page for the C10 witness. -/
def pageC10 : Page := { text := "<html>no widgets</html>", scripts := [] }

/-- Witness for C10: on a page with no marker scripts, two successive
cached-extraction calls both run extraction and both return the empty
map. -/
theorem c10_witness :
    get_embedded_json [] pageC10 = Except.ok
      { fields := [], cache := setA [] (jsonCacheKey pageC10) (CacheVal.json []),
        ran := true } ∧
    get_embedded_json (setA [] (jsonCacheKey pageC10) (CacheVal.json [])) pageC10 =
      Except.ok
        { fields := []
          cache := setA (setA [] (jsonCacheKey pageC10) (CacheVal.json []))
            (jsonCacheKey pageC10) (CacheVal.json [])
          ran := true } :=
  ⟨(c10_falsy_cache_miss [] pageC10 (by simp [pageC10]) (Or.inl rfl)).1,
   (c10_falsy_cache_miss [] pageC10 (by simp [pageC10]) (Or.inl rfl)).2.1⟩
